import Mathlib

/-
Verification of the snippet-to-record pipeline of TextTrainingForge.

The Python functions of src/utils.py (parse_snippets, build_instruction_prompt,
build_input_prompt, stream_llm_response, process_snippet, validate_prompts) and
the fan-out loops of src/app.py and src/attached_assets/gen_training.py are
shallowly embedded below.  Strings are modelled as List Char.  All recursive
definitions are structural (several use an explicit fuel argument bounded by the
input length) so that every definition reduces inside the kernel and concrete
runs can be checked with decide / rfl.

Modelling notes, stated once here:
 * Python str.strip() removes Unicode whitespace; the model trims the six ASCII
   whitespace characters, which covers every string the repository handles.
 * The HTTP layer (the requests library) is represented by an HttpResult value:
   either a connection failure, a timeout, or a response carrying a status code
   and the list of already-decoded body lines.  requests.Response.raise_for_status
   raises exactly for status codes 400..599; this documented library behaviour is
   part of the model.
 * Python exception objects are represented by small inductive types carrying the
   information their str() rendering exposes (which exception class fired, and
   its payload such as an HTTP status code or a missing dictionary key).
-/

def chars (s : String) : List Char := s.toList

/-- The six ASCII whitespace characters trimmed by Python str.strip(). -/
def isPySpace (c : Char) : Bool :=
  c = ' ' || c = '\t' || c = '\n' || c = '\r' || c = '\x0b' || c = '\x0c'

def stripLeft (l : List Char) : List Char := l.dropWhile isPySpace

def stripRight (l : List Char) : List Char := (l.reverse.dropWhile isPySpace).reverse

/-- Python str.strip(): trim whitespace from both ends. -/
def pyStrip (l : List Char) : List Char := stripRight (stripLeft l)

/-- First occurrence of sep in the text: returns (part before, part after). -/
def findSplit (sep : List Char) : List Char → Option (List Char × List Char)
  | [] => none
  | c :: cs =>
    if sep.isPrefixOf (c :: cs) then some ([], (c :: cs).drop sep.length)
    else
      match findSplit sep cs with
      | some (pre, post) => some (c :: pre, post)
      | none => none

/-- Python str.split(sep) for non-empty sep, with fuel (one unit per cut). -/
def pySplitAux : Nat → List Char → List Char → List (List Char)
  | 0, _, text => [text]
  | n + 1, sep, text =>
    match findSplit sep text with
    | none => [text]
    | some (pre, post) => pre :: pySplitAux n sep post

/-- Python text.split(sep).  Meaningful for sep non-empty (CPython raises
ValueError on an empty separator; every theorem below assumes sep is non-empty). -/
def pySplit (sep text : List Char) : List (List Char) :=
  pySplitAux (text.length + 1) sep text

/-- Join a list of pieces with a separator (inverse of splitting). -/
def joinWith (sep : List Char) : List (List Char) → List Char
  | [] => []
  | [x] => x
  | x :: y :: l => x ++ sep ++ joinWith sep (y :: l)

/-- src/utils.py parse_snippets: strip each piece of text.split(split_token) and
keep the pieces that are non-empty after stripping. -/
def parse_snippets (text split_token : List Char) : List (List Char) :=
  ((pySplit split_token text).map pyStrip).filter (fun s => !s.isEmpty)

/-- Python substring test, pat in s. -/
def pyIn (pat s : List Char) : Bool :=
  (List.range (s.length + 1)).any (fun i => (s.drop i).take pat.length == pat)

/-- Characters that may appear in a replacement-field name: the scan stops at
the closing brace, a conversion marker or a format-spec colon. -/
def fieldNameChar (c : Char) : Bool := !(c = '\x7d' || c = ':' || c = '!')

def snippetName : List Char := ['s', 'n', 'i', 'p', 'p', 'e', 't']

def phBody : List Char := ['s', 'n', 'i', 'p', 'p', 'e', 't', '\x7d']

/-- The placeholder marker recognized by the templates. -/
def placeholder : List Char := '\x7b' :: phBody

/-- Errors raised by Python str.format.  The repository only ever uses the bare
field \x7bsnippet\x7d; a conversion (!r etc.) or format spec (:...) on the field is
outside the behaviour the repository exercises and is marked with a dedicated
constructor rather than implemented. -/
inductive FmtErr where
  | singleClosingBrace : FmtErr
  | unterminatedField : FmtErr
  | unknownField : List Char → FmtErr
  | unsupportedConversion : FmtErr
  | unsupportedSpec : FmtErr
  | fuelExhausted : FmtErr
deriving DecidableEq

/-- One pass of template.format(snippet=s): brace escapes \x7b\x7b and \x7d\x7d
produce literal braces, the field \x7bsnippet\x7d is replaced by s verbatim, any
other field or a stray brace raises. -/
def pyFormatAux (s : List Char) : Nat → List Char → Except FmtErr (List Char)
  | 0, _ => .error .fuelExhausted
  | _ + 1, [] => .ok []
  | _ + 1, ['\x7b'] => .error .unterminatedField
  | n + 1, '\x7b' :: '\x7b' :: rest2 => (pyFormatAux s n rest2).map (fun r => '\x7b' :: r)
  | n + 1, '\x7b' :: c2 :: rest2 =>
    match (c2 :: rest2).dropWhile fieldNameChar with
    | '\x7d' :: rest3 =>
      if (c2 :: rest2).takeWhile fieldNameChar = snippetName then
        (pyFormatAux s n rest3).map (fun r => s ++ r)
      else .error (.unknownField ((c2 :: rest2).takeWhile fieldNameChar))
    | ':' :: _ => .error .unsupportedSpec
    | '!' :: _ => .error .unsupportedConversion
    | _ => .error .unterminatedField
  | _ + 1, ['\x7d'] => .error .singleClosingBrace
  | n + 1, '\x7d' :: '\x7d' :: rest2 => (pyFormatAux s n rest2).map (fun r => '\x7d' :: r)
  | _ + 1, '\x7d' :: _ :: _ => .error .singleClosingBrace
  | n + 1, c :: rest => (pyFormatAux s n rest).map (fun r => c :: r)

/-- template.format(snippet=s); consumes at least one character per step so the
fuel (length + 1) is never exhausted. -/
def pyFormat (s t : List Char) : Except FmtErr (List Char) :=
  pyFormatAux s (t.length + 1) t

/-- src/utils.py build_instruction_prompt(snippet, template). -/
def build_instruction_prompt (snippet template : List Char) : Except FmtErr (List Char) :=
  pyFormat snippet template

/-- src/utils.py build_input_prompt(snippet, template). -/
def build_input_prompt (snippet template : List Char) : Except FmtErr (List Char) :=
  pyFormat snippet template

/-- Spec-side substitution: replace every literal, non-overlapping occurrence of
pat by rep, scanning left to right, in a single pass (no recursion into the
replacement text).  This is the operation the specification describes. -/
def replaceAllAux (pat rep : List Char) : Nat → List Char → List Char
  | 0, t => t
  | n + 1, t =>
    match findSplit pat t with
    | none => t
    | some (pre, post) => pre ++ rep ++ replaceAllAux pat rep n post

def replaceAll (pat rep t : List Char) : List Char :=
  replaceAllAux pat rep (t.length + 1) t

/-- Templates whose only brace characters occur as the literal placeholder
\x7bsnippet\x7d.  On these templates, format and plain textual replacement agree. -/
def goodTemplateAux : Nat → List Char → Bool
  | 0, _ => false
  | _ + 1, [] => true
  | n + 1, c :: rest =>
    if c = '\x7b' then
      if phBody.isPrefixOf rest then goodTemplateAux n (rest.drop 8) else false
    else if c = '\x7d' then false
    else goodTemplateAux n rest

def goodTemplate (t : List Char) : Bool := goodTemplateAux (t.length + 1) t

/-- src/utils.py validate_prompts: a separate check (never called by the
builder) that reports whether each template contains the placeholder. -/
def validate_prompts (instruction_template input_template : List Char) :
    Bool × List Char :=
  if !(pyIn placeholder instruction_template) then
    (false, chars ("Instruction template must contain \x7bsnippet\x7d placeholder"))
  else if !(pyIn placeholder input_template) then
    (false, chars ("Input template must contain \x7bsnippet\x7d placeholder"))
  else (true, chars ("Prompts are valid"))

/-- JSON values as produced by json.loads.  Numbers keep their source text (the
stream parser never computes with them; only their truthiness is consulted).
Objects keep their fields in source order; lookup takes the last duplicate, as
a Python dict built key by key does. -/
inductive Json where
  | null : Json
  | bool (b : Bool) : Json
  | num (raw : List Char) : Json
  | str (s : List Char) : Json
  | arr (items : List Json) : Json
  | obj (fields : List (List Char × Json)) : Json

def isJsonWs (c : Char) : Bool := c = ' ' || c = '\t' || c = '\n' || c = '\r'

def skipWs (cs : List Char) : List Char := cs.dropWhile isJsonWs

def hexVal (c : Char) : Option Nat :=
  if '0' ≤ c ∧ c ≤ '9' then some (c.toNat - '0'.toNat)
  else if 'a' ≤ c ∧ c ≤ 'f' then some (c.toNat - 'a'.toNat + 10)
  else if 'A' ≤ c ∧ c ≤ 'F' then some (c.toNat - 'A'.toNat + 10)
  else none

def escChar (c : Char) : Option Char :=
  if c = '"' then some '"'
  else if c = '\\' then some '\\'
  else if c = '/' then some '/'
  else if c = 'b' then some '\x08'
  else if c = 'f' then some '\x0c'
  else if c = 'n' then some '\n'
  else if c = 'r' then some '\r'
  else if c = 't' then some '\t'
  else none

/-- Body of a JSON string after the opening quote.  A \u escape outside the
basic plane is kept as the single code point named by its four hex digits
(surrogate pairs are not recombined; no string in the repository uses them). -/
def parseStrBody : List Char → Option (List Char × List Char)
  | [] => none
  | '"' :: rest => some ([], rest)
  | '\\' :: 'u' :: a :: b :: c :: d :: rest =>
    match hexVal a, hexVal b, hexVal c, hexVal d with
    | some ha, some hb, some hc, some hd =>
      (parseStrBody rest).map
        (fun p => (Char.ofNat (((ha * 16 + hb) * 16 + hc) * 16 + hd) :: p.1, p.2))
    | _, _, _, _ => none
  | '\\' :: e :: rest =>
    match escChar e with
    | some c => (parseStrBody rest).map (fun p => (c :: p.1, p.2))
    | none => none
  | c :: rest =>
    if c.toNat < 32 then none
    else (parseStrBody rest).map (fun p => (c :: p.1, p.2))

def parseIntPart : List Char → Option (List Char × List Char)
  | [] => none
  | c :: rest =>
    if c = '0' then some (['0'], rest)
    else if c.isDigit then
      some (c :: rest.takeWhile Char.isDigit, rest.dropWhile Char.isDigit)
    else none

def parseFracPart : List Char → Option (List Char × List Char)
  | '.' :: rest =>
    if (rest.takeWhile Char.isDigit).isEmpty then none
    else some ('.' :: rest.takeWhile Char.isDigit, rest.dropWhile Char.isDigit)
  | cs => some ([], cs)

def parseExpPart : List Char → Option (List Char × List Char)
  | [] => some ([], [])
  | e :: rest =>
    if e = 'e' || e = 'E' then
      match rest with
      | s :: rest2 =>
        if s = '+' || s = '-' then
          if (rest2.takeWhile Char.isDigit).isEmpty then none
          else some (e :: s :: rest2.takeWhile Char.isDigit, rest2.dropWhile Char.isDigit)
        else
          if (rest.takeWhile Char.isDigit).isEmpty then none
          else some (e :: rest.takeWhile Char.isDigit, rest.dropWhile Char.isDigit)
      | [] => none
    else some ([], e :: rest)

def parseNumAll (cs : List Char) : Option (List Char × List Char) := do
  let (ipart, r1) ← parseIntPart cs
  let (fpart, r2) ← parseFracPart r1
  let (epart, r3) ← parseExpPart r2
  some (ipart ++ fpart ++ epart, r3)

/-- Comma-separated values after an opening bracket that is not immediately
closed; pv parses one value. -/
def parseElems (pv : List Char → Option (Json × List Char)) :
    Nat → List Char → Option (List Json × List Char)
  | 0, _ => none
  | n + 1, cs => do
    let (v, r) ← pv cs
    match skipWs r with
    | ',' :: r2 => (parseElems pv n r2).map (fun p => (v :: p.1, p.2))
    | ']' :: r2 => some ([v], r2)
    | _ => none

/-- Comma-separated key/value pairs after an opening brace that is not
immediately closed. -/
def parseFields (pv : List Char → Option (Json × List Char)) :
    Nat → List Char → Option (List (List Char × Json) × List Char)
  | 0, _ => none
  | n + 1, cs =>
    match skipWs cs with
    | '"' :: r => do
      let (k, r2) ← parseStrBody r
      match skipWs r2 with
      | ':' :: r3 => do
        let (v, r4) ← pv r3
        match skipWs r4 with
        | ',' :: r5 => (parseFields pv n r5).map (fun p => ((k, v) :: p.1, p.2))
        | '\x7d' :: r5 => some ([(k, v)], r5)
        | _ => none
      | _ => none
    | _ => none

/-- One JSON value; fuel bounds the nesting depth.  json.loads also accepts the
non-standard NaN, Infinity and -Infinity literals, kept here as numbers. -/
def parseVal : Nat → List Char → Option (Json × List Char)
  | 0, _ => none
  | n + 1, cs =>
    match skipWs cs with
    | [] => none
    | c :: rest =>
      if c = '"' then (parseStrBody rest).map (fun p => (Json.str p.1, p.2))
      else if c = '[' then
        match skipWs rest with
        | ']' :: r2 => some (Json.arr [], r2)
        | _ => (parseElems (parseVal n) (rest.length + 1) rest).map
            (fun p => (Json.arr p.1, p.2))
      else if c = '\x7b' then
        match skipWs rest with
        | '\x7d' :: r2 => some (Json.obj [], r2)
        | _ => (parseFields (parseVal n) (rest.length + 1) rest).map
            (fun p => (Json.obj p.1, p.2))
      else if c = 't' then
        match rest with
        | 'r' :: 'u' :: 'e' :: r => some (Json.bool true, r)
        | _ => none
      else if c = 'f' then
        match rest with
        | 'a' :: 'l' :: 's' :: 'e' :: r => some (Json.bool false, r)
        | _ => none
      else if c = 'n' then
        match rest with
        | 'u' :: 'l' :: 'l' :: r => some (Json.null, r)
        | _ => none
      else if c = 'N' then
        match rest with
        | 'a' :: 'N' :: r => some (Json.num (chars ("NaN")), r)
        | _ => none
      else if c = 'I' then
        match rest with
        | 'n' :: 'f' :: 'i' :: 'n' :: 'i' :: 't' :: 'y' :: r =>
          some (Json.num (chars ("Infinity")), r)
        | _ => none
      else if c = '-' then
        match rest with
        | 'I' :: 'n' :: 'f' :: 'i' :: 'n' :: 'i' :: 't' :: 'y' :: r =>
          some (Json.num (chars ("-Infinity")), r)
        | _ => (parseNumAll rest).map (fun p => (Json.num ('-' :: p.1), p.2))
      else if c.isDigit then (parseNumAll (c :: rest)).map (fun p => (Json.num p.1, p.2))
      else none

/-- json.loads: one value, optionally surrounded by whitespace, nothing after. -/
def json_loads (s : List Char) : Option Json :=
  match parseVal (s.length + 1) s with
  | some (v, r) => if (skipWs r).isEmpty then some v else none
  | none => none

/-- The exceptions the chunk-navigation line of stream_llm_response can raise
(everything except json.JSONDecodeError, which the code catches and skips). -/
inductive PyExc where
  | keyError (key : List Char) : PyExc
  | indexError : PyExc
  | typeError : PyExc
  | attributeError : PyExc
deriving DecidableEq

/-- Dict lookup; with duplicate keys the last occurrence wins, as in a Python
dict built key by key. -/
def dictLookup (fields : List (List Char × Json)) (key : List Char) : Option Json :=
  fields.foldl (fun acc kv => if kv.1 = key then some kv.2 else acc) none

/-- Python data[key] for a string key: dict lookup (KeyError when absent);
a TypeError on lists, strings, numbers, booleans and None. -/
def pySubscript : Json → List Char → Except PyExc Json
  | .obj fields, key =>
    match dictLookup fields key with
    | some v => .ok v
    | none => .error (.keyError key)
  | _, _ => .error .typeError

/-- Python x[0]: first element of a list (IndexError when empty), first
character of a string, KeyError on a dict (JSON object keys are strings),
TypeError otherwise. -/
def pyIndex0 : Json → Except PyExc Json
  | .arr (v :: _) => .ok v
  | .arr [] => .error .indexError
  | .str (c :: _) => .ok (.str [c])
  | .str [] => .error .indexError
  | .obj _ => .error (.keyError (chars ("0")))
  | _ => .error .typeError

/-- Python d.get(key, default): only dicts have .get (AttributeError otherwise). -/
def pyDictGet : Json → List Char → Json → Except PyExc Json
  | .obj fields, key, dflt => .ok ((dictLookup fields key).getD dflt)
  | _, _, _ => .error .attributeError

/-- A JSON number is falsy exactly when its mantissa has no non-zero digit. -/
def numIsZero (raw : List Char) : Bool :=
  (raw.takeWhile (fun c => !(c = 'e' || c = 'E'))).all
    (fun c => c = '0' || c = '-' || c = '+' || c = '.')

/-- Python truthiness of a decoded JSON value. -/
def jsonTruthy : Json → Bool
  | .null => false
  | .bool b => b
  | .num raw => !numIsZero raw
  | .str s => !s.isEmpty
  | .arr l => !l.isEmpty
  | .obj f => !f.isEmpty

/-- data["choices"][0]["delta"].get("content", "") of src/utils.py line 51. -/
def deltaField (data : Json) : Except PyExc Json := do
  let cs ← pySubscript data (chars ("choices"))
  let c0 ← pyIndex0 cs
  let d ← pySubscript c0 (chars ("delta"))
  pyDictGet d (chars ("content")) (Json.str [])

/-- Lines 51-53 of src/utils.py: extract the delta and, when truthy, append it
to the accumulated text (text += delta needs delta to be a string). -/
def extractAndAppend (acc : List Char) (data : Json) : Except PyExc (List Char) :=
  match deltaField data with
  | .error e => .error e
  | .ok delta =>
    if jsonTruthy delta then
      match delta with
      | .str s => .ok (acc ++ s)
      | _ => .error .typeError
    else .ok acc

def dataMark : List Char := chars ("data: ")

def doneToken : List Char := chars ("[DONE]")

/-- The line loop of src/utils.py stream_llm_response (lines 42-57): skip lines
without the event marker, stop at the terminal sentinel, skip chunks that fail
to decode as JSON, abort on any other exception, and finally return the
accumulated text stripped. -/
def streamLoop : List Char → List (List Char) → Except PyExc (List Char)
  | acc, [] => .ok (pyStrip acc)
  | acc, line :: rest =>
    if line.isEmpty || !(dataMark.isPrefixOf line) then streamLoop acc rest
    else
      if pyStrip (line.drop 6) = doneToken then .ok (pyStrip acc)
      else
        match json_loads (pyStrip (line.drop 6)) with
        | none => streamLoop acc rest
        | some data =>
          match extractAndAppend acc data with
          | .ok acc2 => streamLoop acc2 rest
          | .error e => .error e

/-- What requests.post(..., stream=True) can produce for one call: a connection
failure, a timeout, or a response with a status code and its body lines. -/
inductive HttpResult where
  | connectionFailure (msg : List Char) : HttpResult
  | timedOut : HttpResult
  | resp (status : Nat) (lines : List (List Char)) : HttpResult

/-- The requests exceptions caught by the first handler, as their str() exposes
them: which class fired and, for an HTTPError, the status code. -/
inductive ReqFail where
  | connectionFailure (msg : List Char) : ReqFail
  | timedOut : ReqFail
  | httpError (status : Nat) : ReqFail
deriving DecidableEq

/-- The two exception messages stream_llm_response can raise: the first except
clause wraps a requests exception, the second wraps any other exception from
the line loop. -/
inductive ApiError where
  | apiRequestFailed (cause : ReqFail) : ApiError
  | processingError (cause : PyExc) : ApiError
deriving DecidableEq

/-- src/utils.py stream_llm_response given the outcome of its single POST.
raise_for_status raises HTTPError exactly for status codes 400..599. -/
def stream_llm_response (r : HttpResult) : Except ApiError (List Char) :=
  match r with
  | .connectionFailure m => .error (.apiRequestFailed (.connectionFailure m))
  | .timedOut => .error (.apiRequestFailed .timedOut)
  | .resp status lines =>
    if 400 ≤ status ∧ status < 600 then .error (.apiRequestFailed (.httpError status))
    else
      match streamLoop [] lines with
      | .ok t => .ok t
      | .error e => .error (.processingError e)

def natChars (n : Nat) : List Char := (Nat.repr n).toList

def pyExcMsg : PyExc → List Char
  | .keyError k => k
  | .indexError => chars ("list index out of range")
  | .typeError => chars ("unsupported operand or subscript type")
  | .attributeError => chars ("object has no attribute get")

def reqFailMsg : ReqFail → List Char
  | .connectionFailure m => m
  | .timedOut => chars ("request timed out")
  | .httpError s => natChars s ++ chars (" Error")

def apiErrMsg : ApiError → List Char
  | .apiRequestFailed c => chars ("API request failed: ") ++ reqFailMsg c
  | .processingError e => chars ("Error processing response: ") ++ pyExcMsg e

def fmtErrMsg : FmtErr → List Char
  | .singleClosingBrace => chars ("Single closing brace encountered in format string")
  | .unterminatedField => chars ("expected closing brace before end of string")
  | .unknownField k => k
  | .unsupportedConversion => chars ("conversion not modelled")
  | .unsupportedSpec => chars ("format spec not modelled")
  | .fuelExhausted => chars ("fuel exhausted")

structure TrainingRecord where
  instruction : List Char
  input : List Char
  output : List Char
deriving DecidableEq

def procErrMark : List Char := chars ("Failed to process snippet: ")

/-- src/utils.py process_snippet: build the instruction prompt, complete it,
build the input prompt, complete it, and assemble the record; any exception is
re-raised as "Failed to process snippet: " followed by the cause.  The world
function maps each prompt to the outcome of its HTTP call. -/
def process_snippet (snippet instruction_template input_template : List Char)
    (world : List Char → HttpResult) : Except (List Char) TrainingRecord :=
  match build_instruction_prompt snippet instruction_template with
  | .error e => .error (procErrMark ++ fmtErrMsg e)
  | .ok instruction_prompt =>
    match stream_llm_response (world instruction_prompt) with
    | .error e => .error (procErrMark ++ apiErrMsg e)
    | .ok instruction =>
      match build_input_prompt snippet input_template with
      | .error e => .error (procErrMark ++ fmtErrMsg e)
      | .ok input_prompt =>
        match stream_llm_response (world input_prompt) with
        | .error e => .error (procErrMark ++ apiErrMsg e)
        | .ok input_text => .ok ⟨instruction, input_text, snippet⟩

def isOkE {e a : Type} : Except e a → Bool
  | .ok _ => true
  | .error _ => false

/-- The fan-out of src/attached_assets/gen_training.py main: one task per
snippet, futures keyed by the original index, results consumed in completion
order.  The completion order is any permutation of the indices; each outcome
is the pair (original index, result of that snippet alone). -/
def pool_outcomes (snippets : List (List Char))
    (instruction_template input_template : List Char)
    (world : Nat → List Char → HttpResult) (order : List Nat) :
    List (Nat × Except (List Char) TrainingRecord) :=
  order.map (fun i =>
    (i, process_snippet (snippets.getD i []) instruction_template input_template (world i)))

/-- One iteration of the sequential loop of src/app.py main (lines 233-265):
append the record on success, record the indexed error message on failure. -/
def appStep (instruction_template input_template : List Char)
    (world : Nat → List Char → HttpResult) (snippets : List (List Char))
    (acc : List TrainingRecord × List (Nat × List Char)) (i : Nat) :
    List TrainingRecord × List (Nat × List Char) :=
  match process_snippet (snippets.getD i []) instruction_template input_template (world i) with
  | .ok r => (acc.1 ++ [r], acc.2)
  | .error m =>
    (acc.1,
      acc.2 ++ [(i, chars ("Error processing snippet ") ++ natChars (i + 1) ++ chars (": ") ++ m)])

/-- src/app.py main processing loop over all snippets, collecting the
training_data list and the reported errors. -/
def app_results (snippets : List (List Char))
    (instruction_template input_template : List Char)
    (world : Nat → List Char → HttpResult) :
    List TrainingRecord × List (Nat × List Char) :=
  (List.range snippets.length).foldl
    (appStep instruction_template input_template world snippets) ([], [])

def helLine : List Char :=
  chars ("data: \x7b\"choices\":[\x7b\"delta\":\x7b\"content\":\"Hel\"\x7d\x7d]\x7d")

def loLine : List Char :=
  chars ("data: \x7b\"choices\":[\x7b\"delta\":\x7b\"content\":\"lo\"\x7d\x7d]\x7d")

def doneLine : List Char := chars ("data: [DONE]")

def badJsonLine : List Char := chars ("data: \x7bnot json")

def noChoicesLine : List Char := chars ("data: \x7b\"nochoices\":1\x7d")

def okLine : List Char :=
  chars ("data: \x7b\"choices\":[\x7b\"delta\":\x7b\"content\":\"ok\"\x7d\x7d]\x7d")

/-- A chunk of the recognized shape whose first choice's delta content is s. -/
def mkContentChunk (s : List Char) : Json :=
  .obj [(chars ("choices"),
    .arr [.obj [(chars ("delta"), .obj [(chars ("content"), .str s)])]])]

def appOk (tI tP : List Char) (world : Nat → List Char → HttpResult)
    (snippets : List (List Char)) (i : Nat) : Option TrainingRecord :=
  match process_snippet (snippets.getD i []) tI tP (world i) with
  | .ok r => some r
  | .error _ => none

def appErr (tI tP : List Char) (world : Nat → List Char → HttpResult)
    (snippets : List (List Char)) (i : Nat) : Option (Nat × List Char) :=
  match process_snippet (snippets.getD i []) tI tP (world i) with
  | .ok _ => none
  | .error m =>
    some (i, chars ("Error processing snippet ") ++ natChars (i + 1) ++ chars (": ") ++ m)

def tmplW : List Char := chars ("T: \x7bsnippet\x7d")

def tmplCE : List Char := chars ("\x7b\x7b\x7d\x7d \x7bsnippet\x7d")

def failWorld : List Char → HttpResult := fun _ => .connectionFailure (chars ("refused"))

def snipsW : List (List Char) := [chars ("s0"), chars ("s1")]

def worldW : Nat → List Char → HttpResult := fun i _ =>
  if i = 0 then .connectionFailure (chars ("refused")) else .resp 200 [okLine, doneLine]

-- ### Lemmas and claim theorems

theorem dropWhile_append_of_self (p : Char → Bool) :
    ∀ l : List Char, ∃ u, l = u ++ l.dropWhile p := by
  intro l
  induction l with
  | nil => exact ⟨[], rfl⟩
  | cons c t ih =>
    by_cases h : p c = true
    · obtain ⟨u, hu⟩ := ih
      refine ⟨c :: u, ?_⟩
      simpa [List.dropWhile, h] using congrArg (c :: ·) hu
    · refine ⟨[], ?_⟩
      simp [List.dropWhile, h]

theorem dropWhile_head_false (p : Char → Bool) :
    ∀ (l : List Char) (c : Char) (t : List Char),
      l.dropWhile p = c :: t → p c = false := by
  intro l
  induction l with
  | nil => intro c t h; simp [List.dropWhile] at h
  | cons a as ih =>
    intro c t h
    rw [List.dropWhile_cons] at h
    by_cases ha : p a = true
    · rw [if_pos ha] at h
      exact ih c t h
    · rw [if_neg ha] at h
      injection h with h1 h2
      rw [← h1]
      simpa using ha

theorem stripRight_append (l : List Char) : ∃ u, l = stripRight l ++ u := by
  obtain ⟨u, hu⟩ := dropWhile_append_of_self isPySpace l.reverse
  refine ⟨u.reverse, ?_⟩
  have := congrArg List.reverse hu
  simpa [stripRight, List.reverse_append] using this

theorem pyStrip_head_not_space {l : List Char} {c : Char} {t : List Char}
    (h : pyStrip l = c :: t) : isPySpace c = false := by
  obtain ⟨u, hu⟩ := stripRight_append (stripLeft l)
  rw [pyStrip] at h
  rw [h] at hu
  exact dropWhile_head_false isPySpace l c (t ++ u)
    (by simpa [stripLeft, List.cons_append] using hu)

theorem isPrefixOf_iff_exists (p : List Char) :
    ∀ l, p.isPrefixOf l = true ↔ ∃ t, l = p ++ t := by
  induction p with
  | nil => intro l; simp [List.isPrefixOf]
  | cons a as ih =>
    intro l
    cases l with
    | nil => simp [List.isPrefixOf]
    | cons b bs =>
      simp only [List.isPrefixOf, Bool.and_eq_true, beq_iff_eq]
      constructor
      · rintro ⟨rfl, h⟩
        obtain ⟨t, ht⟩ := (ih bs).mp h
        exact ⟨t, by simp [ht]⟩
      · rintro ⟨t, ht⟩
        rw [List.cons_append] at ht
        injection ht with h1 h2
        exact ⟨h1.symm, (ih bs).mpr ⟨t, h2⟩⟩

theorem findSplit_eq_append {sep : List Char} :
    ∀ {t pre post}, findSplit sep t = some (pre, post) → t = pre ++ sep ++ post := by
  intro t
  induction t with
  | nil => intro pre post h; simp [findSplit] at h
  | cons c cs ih =>
    intro pre post h
    by_cases hp : sep.isPrefixOf (c :: cs) = true
    · rw [findSplit, if_pos hp] at h
      obtain ⟨r, hr⟩ := (isPrefixOf_iff_exists sep (c :: cs)).mp hp
      cases h
      rw [hr, List.drop_left]
      simp
    · rw [findSplit, if_neg hp] at h
      cases hfs : findSplit sep cs with
      | none => rw [hfs] at h; cases h
      | some pp =>
        rw [hfs] at h
        cases pp with
        | mk pre' post' =>
          cases h
          have := ih hfs
          simp [this]

theorem findSplit_post_lt {sep : List Char} (hsep : sep ≠ []) :
    ∀ {t pre post}, findSplit sep t = some (pre, post) → post.length < t.length := by
  intro t pre post h
  have hd := findSplit_eq_append h
  have : 0 < sep.length := List.length_pos.mpr hsep
  rw [hd]
  simp only [List.length_append]
  omega

theorem findSplit_cons_of_not_pre {sep : List Char} {c : Char} {cs : List Char}
    (h : sep.isPrefixOf (c :: cs) = false) :
    findSplit sep (c :: cs) = (findSplit sep cs).map (fun pp => (c :: pp.1, pp.2)) := by
  rw [findSplit, if_neg (by simp [h])]
  cases hfs : findSplit sep cs with
  | none => simp
  | some pp => cases pp; simp

theorem pyIn_of_decomp (pat : List Char) (pre post : List Char) :
    pyIn pat (pre ++ pat ++ post) = true := by
  rw [pyIn, List.any_eq_true]
  refine ⟨pre.length, List.mem_range.mpr ?_, ?_⟩
  · simp only [List.length_append]; omega
  · rw [List.append_assoc, List.drop_left, List.take_left]
    exact beq_self_eq_true pat

theorem pyIn_to_decomp {pat s : List Char} (h : pyIn pat s = true) :
    ∃ pre post, s = pre ++ pat ++ post := by
  rw [pyIn, List.any_eq_true] at h
  obtain ⟨i, _, hi⟩ := h
  have htake : (s.drop i).take pat.length = pat := by
    exact eq_of_beq hi
  refine ⟨s.take i, (s.drop i).drop pat.length, ?_⟩
  have hsplit :
      s = s.take i ++ ((s.drop i).take pat.length ++ (s.drop i).drop pat.length) := by
    rw [List.take_append_drop, List.take_append_drop]
  rw [htake] at hsplit
  simpa [List.append_assoc] using hsplit

theorem findSplit_none_of_pyIn_false {sep t : List Char}
    (h : pyIn sep t = false) : findSplit sep t = none := by
  cases hfs : findSplit sep t with
  | none => rfl
  | some pp =>
    cases pp with
    | mk pre post =>
      have := findSplit_eq_append hfs
      rw [this, pyIn_of_decomp sep pre post] at h
      cases h

theorem findSplit_pre_clean {sep : List Char} (hsep : sep ≠ []) :
    ∀ (t pre post : List Char),
      findSplit sep t = some (pre, post) → pyIn sep pre = false := by
  intro t
  induction t with
  | nil => intro pre post h; simp [findSplit] at h
  | cons c cs ih =>
    intro pre post h
    by_cases hp : sep.isPrefixOf (c :: cs) = true
    · rw [findSplit, if_pos hp] at h
      have hpre : pre = [] := by
        simp only [Option.some.injEq, Prod.mk.injEq] at h
        exact h.1.symm
      subst hpre
      cases hin : pyIn sep [] with
      | false => rfl
      | true =>
        obtain ⟨a, b, hab⟩ := pyIn_to_decomp hin
        have hlen := congrArg List.length hab
        simp only [List.length_nil, List.length_append] at hlen
        exact absurd (List.length_eq_zero.mp (by omega)) hsep
    · rw [findSplit, if_neg hp] at h
      rcases hfs : findSplit sep cs with _ | ⟨pre1, post1⟩
      · rw [hfs] at h; cases h
      · rw [hfs] at h
        have hpre : pre = c :: pre1 := by
          simp only [Option.some.injEq, Prod.mk.injEq] at h
          exact h.1.symm
        subst hpre
        cases hin : pyIn sep (c :: pre1) with
        | false => rfl
        | true =>
          obtain ⟨a, b, hab⟩ := pyIn_to_decomp hin
          cases a with
          | nil =>
            exfalso
            apply hp
            rw [isPrefixOf_iff_exists]
            have hcs : cs = pre1 ++ sep ++ post1 := findSplit_eq_append hfs
            simp only [List.nil_append] at hab
            refine ⟨b ++ sep ++ post1, ?_⟩
            rw [hcs, show c :: (pre1 ++ sep ++ post1) = (c :: pre1) ++ sep ++ post1 by
              simp, hab]
            simp [List.append_assoc]
          | cons a0 as =>
            rw [List.cons_append, List.cons_append] at hab
            injection hab with h1 h2
            have h3 : pyIn sep pre1 = true := by
              rw [h2]
              exact pyIn_of_decomp sep as b
            rw [ih pre1 post1 hfs] at h3
            cases h3

theorem findSplit_none_no_decomp {sep : List Char} (hsep : sep ≠ []) :
    ∀ (t : List Char), findSplit sep t = none → pyIn sep t = false := by
  intro t
  induction t with
  | nil =>
    intro _
    cases hin : pyIn sep [] with
    | false => rfl
    | true =>
      obtain ⟨pre, post, hd⟩ := pyIn_to_decomp hin
      have hlen := congrArg List.length hd
      simp only [List.length_nil, List.length_append] at hlen
      exact absurd (List.length_eq_zero.mp (by omega)) hsep
  | cons c cs ih =>
    intro h
    by_cases hp : sep.isPrefixOf (c :: cs) = true
    · rw [findSplit, if_pos hp] at h; cases h
    · rw [findSplit, if_neg hp] at h
      rcases hfs : findSplit sep cs with _ | ⟨pre1, post1⟩
      · cases hin : pyIn sep (c :: cs) with
        | false => rfl
        | true =>
          obtain ⟨pre, post, hd⟩ := pyIn_to_decomp hin
          cases pre with
          | nil =>
            exfalso
            apply hp
            rw [isPrefixOf_iff_exists]
            simp only [List.nil_append] at hd
            exact ⟨post, hd⟩
          | cons p0 ps =>
            rw [List.cons_append, List.cons_append] at hd
            injection hd with h1 h2
            have h3 : pyIn sep cs = true := by
              rw [h2]
              exact pyIn_of_decomp sep ps post
            rw [ih hfs] at h3
            cases h3
      · rw [hfs] at h; cases h

theorem joinWith_cons (sep : List Char) (x : List Char) {l : List (List Char)}
    (h : l ≠ []) : joinWith sep (x :: l) = x ++ sep ++ joinWith sep l := by
  cases l with
  | nil => exact absurd rfl h
  | cons y ys => rfl

theorem pySplitAux_ne_nil : ∀ (n : Nat) (sep t : List Char), pySplitAux n sep t ≠ [] := by
  intro n sep t
  cases n with
  | zero => simp [pySplitAux]
  | succ m =>
    rw [pySplitAux]
    cases h : findSplit sep t with
    | none => simp
    | some pp => cases pp; simp

theorem joinWith_pySplitAux {sep : List Char} (hsep : sep ≠ []) :
    ∀ (n : Nat) (t : List Char), t.length < n →
      joinWith sep (pySplitAux n sep t) = t := by
  intro n
  induction n with
  | zero => intro t ht; omega
  | succ m ih =>
    intro t ht
    rw [pySplitAux]
    cases h : findSplit sep t with
    | none => rfl
    | some pp =>
      cases pp with
      | mk pre post =>
        rw [joinWith_cons sep pre (pySplitAux_ne_nil m sep post)]
        have hlt : post.length < t.length := findSplit_post_lt hsep h
        rw [ih post (by omega)]
        exact (findSplit_eq_append h).symm

theorem joinWith_pySplit {sep : List Char} (hsep : sep ≠ []) (t : List Char) :
    joinWith sep (pySplit sep t) = t :=
  joinWith_pySplitAux hsep (t.length + 1) t (Nat.lt_succ_self _)

theorem pySplitAux_clean {sep : List Char} (hsep : sep ≠ []) :
    ∀ (n : Nat) (t : List Char), t.length < n →
      ∀ p ∈ pySplitAux n sep t, pyIn sep p = false := by
  intro n
  induction n with
  | zero => intro t ht; omega
  | succ m ih =>
    intro t ht p hp
    rw [pySplitAux] at hp
    cases h : findSplit sep t with
    | none =>
      rw [h] at hp
      simp only [List.mem_singleton] at hp
      rw [hp]
      exact findSplit_none_no_decomp hsep t h
    | some pp =>
      cases pp with
      | mk pre post =>
        rw [h] at hp
        rcases List.mem_cons.mp hp with rfl | hmem
        · exact findSplit_pre_clean hsep t p post h
        · have hlt : post.length < t.length := findSplit_post_lt hsep h
          exact ih post (by omega) p hmem

theorem pySplit_clean {sep : List Char} (hsep : sep ≠ []) (t : List Char) :
    ∀ p ∈ pySplit sep t, pyIn sep p = false :=
  pySplitAux_clean hsep (t.length + 1) t (Nat.lt_succ_self _)

theorem mem_parse_snippets {text sep e : List Char}
    (h : e ∈ parse_snippets text sep) :
    e ≠ [] ∧ ∃ p ∈ pySplit sep text, e = pyStrip p := by
  rw [parse_snippets] at h
  obtain ⟨hmem, hne⟩ := List.mem_filter.mp h
  obtain ⟨p, hp, rfl⟩ := List.mem_map.mp hmem
  refine ⟨?_, p, hp, rfl⟩
  intro hnil
  rw [hnil] at hne
  simp at hne

theorem parse_snippets_entry_has_ink {text sep e : List Char}
    (h : e ∈ parse_snippets text sep) :
    e ≠ [] ∧ e.any (fun c => !isPySpace c) = true := by
  obtain ⟨hne, p, _, rfl⟩ := mem_parse_snippets h
  refine ⟨hne, ?_⟩
  cases he : pyStrip p with
  | nil => exact absurd he hne
  | cons c t =>
    have := pyStrip_head_not_space he
    simp [List.any_cons, this]

theorem length_dropWhile_le (p : Char → Bool) :
    ∀ l : List Char, (l.dropWhile p).length ≤ l.length := by
  intro l
  induction l with
  | nil => simp [List.dropWhile]
  | cons a as ih =>
    rw [List.dropWhile_cons]
    by_cases ha : p a = true
    · rw [if_pos ha]
      simp only [List.length_cons]
      omega
    · rw [if_neg ha]

theorem fmt_step_field (s : List Char) (n : Nat) (c2 : Char) (rest2 : List Char)
    (hc2 : c2 ≠ '\x7b') :
    pyFormatAux s (n + 1) ('\x7b' :: c2 :: rest2) =
      match (c2 :: rest2).dropWhile fieldNameChar with
      | '\x7d' :: rest3 =>
        if (c2 :: rest2).takeWhile fieldNameChar = snippetName then
          (pyFormatAux s n rest3).map (fun r => s ++ r)
        else .error (.unknownField ((c2 :: rest2).takeWhile fieldNameChar))
      | ':' :: _ => .error .unsupportedSpec
      | '!' :: _ => .error .unsupportedConversion
      | _ => .error .unterminatedField :=
  pyFormatAux.eq_5 s n c2 rest2 (fun h => hc2 h)

theorem fmt_step_close_bad (s : List Char) (n : Nat) (c2 : Char) (rest2 : List Char)
    (hc2 : c2 ≠ '\x7d') :
    pyFormatAux s (n + 1) ('\x7d' :: c2 :: rest2) = .error .singleClosingBrace :=
  pyFormatAux.eq_8 s n c2 rest2 (fun h => hc2 h)

theorem fmt_step_plain (s : List Char) (n : Nat) (c : Char) (rest : List Char)
    (hc : c ≠ '\x7b') (hc' : c ≠ '\x7d') :
    pyFormatAux s (n + 1) (c :: rest) = (pyFormatAux s n rest).map (fun r => c :: r) :=
  pyFormatAux.eq_9 s n c rest (fun h _ => hc h) (fun _ h _ => hc h) (fun _ _ h _ => hc h)
    (fun h _ => hc' h) (fun _ h _ => hc' h) (fun _ _ h _ => hc' h)

theorem fmt_step_ph (s t : List Char) (n : Nat) :
    pyFormatAux s (n + 1) (placeholder ++ t) = (pyFormatAux s n t).map (fun r => s ++ r) := rfl

theorem pyFormatAux_fuel_irrel (s : List Char) :
    ∀ (n : Nat) (m : Nat) (t : List Char), t.length < n → t.length < m →
      pyFormatAux s n t = pyFormatAux s m t := by
  intro n
  induction n with
  | zero => intro m t ht _; omega
  | succ n1 ih =>
    intro m t ht hm
    cases m with
    | zero => omega
    | succ m1 =>
      cases t with
      | nil => rfl
      | cons c rest =>
        simp only [List.length_cons] at ht hm
        by_cases hc : c = '\x7b'
        · subst hc
          cases rest with
          | nil => rfl
          | cons c2 rest2 =>
            simp only [List.length_cons] at ht hm
            by_cases hc2 : c2 = '\x7b'
            · subst hc2
              exact congrArg (Except.map (fun r => '\x7b' :: r))
                (ih m1 rest2 (by omega) (by omega))
            · rw [fmt_step_field s n1 c2 rest2 hc2, fmt_step_field s m1 c2 rest2 hc2]
              split
              · next rest3 heq =>
                have hlen : rest3.length ≤ rest2.length := by
                  have := length_dropWhile_le fieldNameChar (c2 :: rest2)
                  rw [heq] at this
                  simp only [List.length_cons] at this
                  omega
                rw [ih m1 rest3 (by omega) (by omega)]
              · rfl
              · rfl
              · rfl
        · by_cases hc' : c = '\x7d'
          · subst hc'
            cases rest with
            | nil => rfl
            | cons c2 rest2 =>
              simp only [List.length_cons] at ht hm
              by_cases hc2 : c2 = '\x7d'
              · subst hc2
                exact congrArg (Except.map (fun r => '\x7d' :: r))
                  (ih m1 rest2 (by omega) (by omega))
              · rw [fmt_step_close_bad s n1 c2 rest2 hc2, fmt_step_close_bad s m1 c2 rest2 hc2]
          · rw [fmt_step_plain s n1 c rest hc hc', fmt_step_plain s m1 c rest hc hc',
              ih m1 rest (by omega) (by omega)]

theorem pyFormat_nil (s : List Char) : pyFormat s [] = .ok [] := rfl

theorem pyFormat_plain {c : Char} (s t : List Char)
    (hc : c ≠ '\x7b') (hc' : c ≠ '\x7d') :
    pyFormat s (c :: t) = (pyFormat s t).map (fun r => c :: r) := by
  rw [pyFormat, List.length_cons, fmt_step_plain s (t.length + 1) c t hc hc', pyFormat]

theorem pyFormat_ph (s t : List Char) :
    pyFormat s (placeholder ++ t) = (pyFormat s t).map (fun r => s ++ r) := by
  rw [pyFormat, show (placeholder ++ t).length + 1 = (t.length + 9) + 1 by
    simp [placeholder, phBody, List.length_append], fmt_step_ph s t (t.length + 9)]
  rw [pyFormatAux_fuel_irrel s (t.length + 9) (t.length + 1) t (by omega) (by omega), pyFormat]

theorem replaceAllAux_fuel_irrel {pat : List Char} (hpat : pat ≠ []) (rep : List Char) :
    ∀ (n : Nat) (m : Nat) (t : List Char), t.length < n → t.length < m →
      replaceAllAux pat rep n t = replaceAllAux pat rep m t := by
  intro n
  induction n with
  | zero => intro m t ht _; omega
  | succ n1 ih =>
    intro m t ht hm
    cases m with
    | zero => omega
    | succ m1 =>
      simp only [replaceAllAux]
      cases hfs : findSplit pat t with
      | none => rfl
      | some pp =>
        cases pp with
        | mk pre post =>
          have hlt : post.length < t.length := findSplit_post_lt hpat hfs
          exact congrArg (fun x => pre ++ rep ++ x) (ih m1 post (by omega) (by omega))

theorem replaceAll_of_none {pat rep t : List Char} (h : findSplit pat t = none) :
    replaceAll pat rep t = t := by
  rw [replaceAll, replaceAllAux, h]

theorem replaceAll_step_some {pat rep t pre post : List Char}
    (h : findSplit pat t = some (pre, post)) :
    replaceAll pat rep t = pre ++ rep ++ replaceAllAux pat rep t.length post := by
  rw [replaceAll, replaceAllAux, h]

theorem replaceAll_cons {pat : List Char} (hpat : pat ≠ []) (rep : List Char)
    {c : Char} {t : List Char} (hc : pat.isPrefixOf (c :: t) = false) :
    replaceAll pat rep (c :: t) = c :: replaceAll pat rep t := by
  rw [replaceAll, List.length_cons, replaceAllAux, findSplit_cons_of_not_pre hc]
  cases hfs : findSplit pat t with
  | none =>
    rw [replaceAll_of_none hfs]
    rfl
  | some pp =>
    cases pp with
    | mk pre post =>
      have hlt : post.length < t.length := findSplit_post_lt hpat hfs
      rw [replaceAll_step_some hfs]
      exact congrArg (fun x => (c :: pre) ++ rep ++ x)
        (replaceAllAux_fuel_irrel hpat rep (t.length + 1) t.length post (by omega) (by omega))

theorem findSplit_self_append (pat t : List Char) (hpat : pat ≠ []) :
    findSplit pat (pat ++ t) = some ([], t) := by
  cases pat with
  | nil => exact absurd rfl hpat
  | cons p ps =>
    have hpre : (p :: ps).isPrefixOf (p :: (ps ++ t)) = true := by
      rw [isPrefixOf_iff_exists]
      exact ⟨t, by simp⟩
    have hdrop : (p :: (ps ++ t)).drop (p :: ps).length = t := by
      have := List.drop_left (p :: ps) t
      rwa [List.cons_append] at this
    rw [List.cons_append, findSplit, if_pos hpre, hdrop]

theorem replaceAll_ph_step {pat : List Char} (hpat : pat ≠ []) (rep t : List Char) :
    replaceAll pat rep (pat ++ t) = rep ++ replaceAll pat rep t := by
  rw [replaceAll, replaceAllAux, findSplit_self_append pat t hpat]
  have h1 : t.length < (pat ++ t).length := by
    have : 0 < pat.length := List.length_pos.mpr hpat
    simp only [List.length_append]
    omega
  exact congrArg (fun x => [] ++ rep ++ x)
    (replaceAllAux_fuel_irrel hpat rep (pat ++ t).length (t.length + 1) t h1 (by omega))

theorem placeholder_ne_nil : placeholder ≠ [] := by
  simp [placeholder]

theorem ph_not_prefixOf_cons {c : Char} {rest : List Char} (hc : c ≠ '\x7b') :
    placeholder.isPrefixOf (c :: rest) = false := by
  cases hiso : placeholder.isPrefixOf (c :: rest) with
  | false => rfl
  | true =>
    obtain ⟨u, hu⟩ := (isPrefixOf_iff_exists placeholder (c :: rest)).mp hiso
    rw [placeholder, List.cons_append] at hu
    injection hu with h1 h2
    exact absurd h1 hc

theorem goodTemplateAux_refines (s : List Char) :
    ∀ (n : Nat) (t : List Char), t.length < n → goodTemplateAux n t = true →
      pyFormat s t = .ok (replaceAll placeholder s t) := by
  intro n
  induction n with
  | zero => intro t ht _; omega
  | succ n1 ih =>
    intro t ht hg
    cases t with
    | nil =>
      rw [pyFormat_nil, replaceAll_of_none (show findSplit placeholder [] = none from rfl)]
    | cons c rest =>
      rw [goodTemplateAux] at hg
      by_cases hc : c = '\x7b'
      · subst hc
        rw [if_pos rfl] at hg
        by_cases hpre : phBody.isPrefixOf rest = true
        · rw [if_pos hpre] at hg
          obtain ⟨t1, rfl⟩ := (isPrefixOf_iff_exists phBody rest).mp hpre
          have hdrop8 : (phBody ++ t1).drop 8 = t1 := by
            have h8 := List.drop_left phBody t1
            rwa [show phBody.length = 8 from rfl] at h8
          rw [hdrop8] at hg
          have hlen1 : t1.length < n1 := by
            simp only [List.length_cons, List.length_append, phBody] at ht
            simp only [List.length_cons, List.length_nil] at ht
            omega
          have hih := ih t1 hlen1 hg
          have hph : ('\x7b' :: (phBody ++ t1)) = placeholder ++ t1 := by
            rw [placeholder, List.cons_append]
          rw [hph, pyFormat_ph, replaceAll_ph_step placeholder_ne_nil s t1, hih]
          rfl
        · rw [if_neg hpre] at hg
          cases hg
      · rw [if_neg hc] at hg
        by_cases hc' : c = '\x7d'
        · rw [if_pos hc'] at hg
          cases hg
        · rw [if_neg hc'] at hg
          have hlen1 : rest.length < n1 := by
            simp only [List.length_cons] at ht
            omega
          have hih := ih rest hlen1 hg
          rw [pyFormat_plain s rest hc hc', hih,
            replaceAll_cons placeholder_ne_nil s (ph_not_prefixOf_cons hc)]
          rfl

/-- On templates whose only braces are the literal placeholder, Python format
with snippet=s is exactly textual replacement of the placeholder by s. -/
theorem pyFormat_goodTemplate (s t : List Char) (hg : goodTemplate t = true) :
    pyFormat s t = .ok (replaceAll placeholder s t) :=
  goodTemplateAux_refines s (t.length + 1) t (Nat.lt_succ_self _) hg

/-- A good template without the placeholder passes through format unchanged. -/
theorem pyFormat_no_placeholder (s t : List Char) (hg : goodTemplate t = true)
    (hin : pyIn placeholder t = false) : pyFormat s t = .ok t := by
  rw [pyFormat_goodTemplate s t hg,
    replaceAll_of_none (findSplit_none_of_pyIn_false hin)]

theorem streamLoop_nil (acc : List Char) : streamLoop acc [] = .ok (pyStrip acc) := rfl

theorem streamLoop_skip_non_data {line : List Char} (acc : List Char)
    (rest : List (List Char)) (h : dataMark.isPrefixOf line = false) :
    streamLoop acc (line :: rest) = streamLoop acc rest := by
  have hcond : (line.isEmpty || !(dataMark.isPrefixOf line)) = true := by
    rw [h]
    simp
  rw [streamLoop, if_pos hcond]

theorem line_not_empty_of_data {line : List Char}
    (h : dataMark.isPrefixOf line = true) : line.isEmpty = false := by
  obtain ⟨u, hu⟩ := (isPrefixOf_iff_exists dataMark line).mp h
  subst hu
  rfl

theorem streamLoop_done {line : List Char} (acc : List Char) (rest : List (List Char))
    (h1 : dataMark.isPrefixOf line = true)
    (h2 : pyStrip (line.drop 6) = doneToken) :
    streamLoop acc (line :: rest) = .ok (pyStrip acc) := by
  have hcond : (line.isEmpty || !(dataMark.isPrefixOf line)) = false := by
    rw [h1, line_not_empty_of_data h1]
    rfl
  rw [streamLoop, if_neg (by simp [hcond]), if_pos h2]

theorem streamLoop_step {line : List Char} (acc : List Char) (rest : List (List Char))
    {d : Json} (h1 : dataMark.isPrefixOf line = true)
    (h2 : pyStrip (line.drop 6) ≠ doneToken)
    (h3 : json_loads (pyStrip (line.drop 6)) = some d) :
    streamLoop acc (line :: rest) =
      match extractAndAppend acc d with
      | .ok acc2 => streamLoop acc2 rest
      | .error e => .error e := by
  have hcond : (line.isEmpty || !(dataMark.isPrefixOf line)) = false := by
    rw [h1, line_not_empty_of_data h1]
    rfl
  rw [streamLoop, if_neg (by simp [hcond]), if_neg h2, h3]

theorem streamLoop_content {line : List Char} (acc : List Char) (rest : List (List Char))
    {d : Json} {s : List Char} (h1 : dataMark.isPrefixOf line = true)
    (h2 : pyStrip (line.drop 6) ≠ doneToken)
    (h3 : json_loads (pyStrip (line.drop 6)) = some d)
    (h4 : deltaField d = .ok (.str s)) :
    streamLoop acc (line :: rest) = streamLoop (acc ++ s) rest := by
  rw [streamLoop_step acc rest h1 h2 h3]
  rw [extractAndAppend, h4]
  cases hs : s.isEmpty with
  | true =>
    rw [List.isEmpty_iff] at hs
    subst hs
    simp [jsonTruthy]
  | false =>
    simp [jsonTruthy, hs]

theorem streamLoop_skip_malformed {line : List Char} (acc : List Char)
    (rest : List (List Char)) (h1 : dataMark.isPrefixOf line = true)
    (h2 : pyStrip (line.drop 6) ≠ doneToken)
    (h3 : json_loads (pyStrip (line.drop 6)) = none) :
    streamLoop acc (line :: rest) = streamLoop acc rest := by
  have hcond : (line.isEmpty || !(dataMark.isPrefixOf line)) = false := by
    rw [h1, line_not_empty_of_data h1]
    rfl
  rw [streamLoop, if_neg (by simp [hcond]), if_neg h2, h3]

theorem streamLoop_abort {line : List Char} (acc : List Char) (rest : List (List Char))
    {d : Json} {e : PyExc} (h1 : dataMark.isPrefixOf line = true)
    (h2 : pyStrip (line.drop 6) ≠ doneToken)
    (h3 : json_loads (pyStrip (line.drop 6)) = some d)
    (h4 : deltaField d = .error e) :
    streamLoop acc (line :: rest) = .error e := by
  rw [streamLoop_step acc rest h1 h2 h3]
  rw [extractAndAppend, h4]

theorem stream_llm_response_ok_of_loop {status : Nat} {lines : List (List Char)}
    {t : List Char} (hs : ¬(400 ≤ status ∧ status < 600))
    (h : streamLoop [] lines = .ok t) :
    stream_llm_response (.resp status lines) = .ok t := by
  rw [stream_llm_response]
  rw [if_neg hs, h]

theorem stream_llm_response_err_of_loop {status : Nat} {lines : List (List Char)}
    {e : PyExc} (hs : ¬(400 ≤ status ∧ status < 600))
    (h : streamLoop [] lines = .error e) :
    stream_llm_response (.resp status lines) = .error (.processingError e) := by
  rw [stream_llm_response]
  rw [if_neg hs, h]

theorem stream_llm_response_http {status : Nat} {lines : List (List Char)}
    (hs : 400 ≤ status ∧ status < 600) :
    stream_llm_response (.resp status lines) = .error (.apiRequestFailed (.httpError status)) := by
  rw [stream_llm_response]
  rw [if_pos hs]

theorem process_snippet_cases (snippet tI tP : List Char)
    (world : List Char → HttpResult) :
    (∃ instr inp, process_snippet snippet tI tP world =
        .ok ⟨instr, inp, snippet⟩) ∨
    (∃ m, process_snippet snippet tI tP world = .error (procErrMark ++ m)) := by
  cases h1 : build_instruction_prompt snippet tI with
  | error e => exact Or.inr ⟨fmtErrMsg e, by simp only [process_snippet, h1]⟩
  | ok p1 =>
    cases h2 : stream_llm_response (world p1) with
    | error e => exact Or.inr ⟨apiErrMsg e, by simp only [process_snippet, h1, h2]⟩
    | ok instr =>
      cases h3 : build_input_prompt snippet tP with
      | error e => exact Or.inr ⟨fmtErrMsg e, by simp only [process_snippet, h1, h2, h3]⟩
      | ok p2 =>
        cases h4 : stream_llm_response (world p2) with
        | error e =>
          exact Or.inr ⟨apiErrMsg e, by simp only [process_snippet, h1, h2, h3, h4]⟩
        | ok inp =>
          exact Or.inl ⟨instr, inp, by simp only [process_snippet, h1, h2, h3, h4]⟩

theorem process_snippet_fail_first (snippet tI tP : List Char)
    (world : List Char → HttpResult) {p1 : List Char} {e : ApiError}
    (h1 : build_instruction_prompt snippet tI = .ok p1)
    (h2 : stream_llm_response (world p1) = .error e) :
    process_snippet snippet tI tP world = .error (procErrMark ++ apiErrMsg e) := by
  simp only [process_snippet, h1, h2]

theorem process_snippet_good (snippet tI tP : List Char)
    (world : List Char → HttpResult)
    (hgi : goodTemplate tI = true) (hgp : goodTemplate tP = true)
    (hw : ∀ p, world p = .resp 200 [okLine, doneLine]) :
    process_snippet snippet tI tP world = .ok ⟨chars ("ok"), chars ("ok"), snippet⟩ := by
  have h1 : build_instruction_prompt snippet tI = .ok (replaceAll placeholder snippet tI) :=
    pyFormat_goodTemplate snippet tI hgi
  have h2 : build_input_prompt snippet tP = .ok (replaceAll placeholder snippet tP) :=
    pyFormat_goodTemplate snippet tP hgp
  have hok : ∀ p, stream_llm_response (world p) = .ok (chars ("ok")) := by
    intro p
    rw [hw p]
    rfl
  simp only [process_snippet, h1, h2, hok]

theorem process_snippet_all_fail (snippet tI tP : List Char)
    (world : List Char → HttpResult) {m : List Char}
    (hgi : goodTemplate tI = true)
    (hw : ∀ p, world p = .connectionFailure m) :
    process_snippet snippet tI tP world =
      .error (procErrMark ++ (chars ("API request failed: ") ++ m)) := by
  have h1 : build_instruction_prompt snippet tI = .ok (replaceAll placeholder snippet tI) :=
    pyFormat_goodTemplate snippet tI hgi
  have h2 : stream_llm_response (world (replaceAll placeholder snippet tI)) =
      .error (.apiRequestFailed (.connectionFailure m)) := by
    rw [hw]
    rfl
  exact process_snippet_fail_first snippet tI tP world h1 h2

theorem pool_outcomes_map_fst (snippets : List (List Char)) (tI tP : List Char)
    (world : Nat → List Char → HttpResult) (order : List Nat) :
    (pool_outcomes snippets tI tP world order).map Prod.fst = order := by
  rw [pool_outcomes, List.map_map]
  have : (Prod.fst ∘ fun i =>
      (i, process_snippet (snippets.getD i []) tI tP (world i))) = id := rfl
  rw [this, List.map_id]

theorem pool_outcomes_length (snippets : List (List Char)) (tI tP : List Char)
    (world : Nat → List Char → HttpResult) (order : List Nat) :
    (pool_outcomes snippets tI tP world order).length = order.length := by
  simp [pool_outcomes]

theorem countP_isOk_add (l : List (Nat × Except (List Char) TrainingRecord)) :
    l.countP (fun o => isOkE o.2) + l.countP (fun o => !(isOkE o.2)) = l.length := by
  induction l with
  | nil => rfl
  | cons a t ih =>
    rw [List.countP_cons, List.countP_cons]
    cases h : isOkE a.2 <;> simp [h] <;> omega

theorem mem_pool_outcomes {snippets : List (List Char)} {tI tP : List Char}
    {world : Nat → List Char → HttpResult} {order : List Nat}
    {oc : Nat × Except (List Char) TrainingRecord}
    (h : oc ∈ pool_outcomes snippets tI tP world order) :
    oc.1 ∈ order ∧
      oc.2 = process_snippet (snippets.getD oc.1 []) tI tP (world oc.1) := by
  rw [pool_outcomes] at h
  obtain ⟨i, hi, rfl⟩ := List.mem_map.mp h
  exact ⟨hi, rfl⟩

theorem foldl_appStep_eq (tI tP : List Char) (world : Nat → List Char → HttpResult)
    (snippets : List (List Char)) :
    ∀ (idxs : List Nat) (acc : List TrainingRecord × List (Nat × List Char)),
      idxs.foldl (appStep tI tP world snippets) acc =
        (acc.1 ++ idxs.filterMap (appOk tI tP world snippets),
         acc.2 ++ idxs.filterMap (appErr tI tP world snippets)) := by
  intro idxs
  induction idxs with
  | nil => intro acc; simp
  | cons i t ih =>
    intro acc
    rw [List.foldl_cons, ih]
    cases h : process_snippet (snippets.getD i []) tI tP (world i) with
    | ok r =>
      simp only [appStep, appOk, appErr, h, List.filterMap_cons]
      simp [List.append_assoc]
    | error m =>
      simp only [appStep, appOk, appErr, h, List.filterMap_cons]
      simp [List.append_assoc]

theorem app_results_eq (snippets : List (List Char)) (tI tP : List Char)
    (world : Nat → List Char → HttpResult) :
    app_results snippets tI tP world =
      ((List.range snippets.length).filterMap (appOk tI tP world snippets),
       (List.range snippets.length).filterMap (appErr tI tP world snippets)) := by
  rw [app_results, foldl_appStep_eq]
  simp

theorem filterMap_length_partition {α β γ : Type} (f : α → Option β) (g : α → Option γ)
    (l : List α)
    (h : ∀ a ∈ l, ((f a).isSome ∧ g a = none) ∨ (f a = none ∧ (g a).isSome)) :
    (l.filterMap f).length + (l.filterMap g).length = l.length := by
  induction l with
  | nil => rfl
  | cons a t ih =>
    have ha := h a (List.mem_cons_self a t)
    have ht := ih (fun x hx => h x (List.mem_cons_of_mem a hx))
    rcases ha with ⟨h1, h2⟩ | ⟨h1, h2⟩
    · obtain ⟨b, hb⟩ := Option.isSome_iff_exists.mp h1
      simp only [List.filterMap_cons, hb, h2, List.length_cons]
      omega
    · obtain ⟨c, hc⟩ := Option.isSome_iff_exists.mp h2
      simp only [List.filterMap_cons, hc, h1, List.length_cons]
      omega

theorem appOk_appErr_exclusive (tI tP : List Char) (world : Nat → List Char → HttpResult)
    (snippets : List (List Char)) (i : Nat) :
    ((appOk tI tP world snippets i).isSome ∧ appErr tI tP world snippets i = none) ∨
    (appOk tI tP world snippets i = none ∧ (appErr tI tP world snippets i).isSome) := by
  simp only [appOk, appErr]
  cases h : process_snippet (snippets.getD i []) tI tP (world i) <;> simp

/-- Claim C1: for every text and non-empty delimiter, parse_snippets cuts the
text into pieces that rejoin with the delimiter to the original text and
contain no further delimiter occurrence; it returns exactly those pieces
trimmed, in order, with the pieces that are empty after trimming discarded; no
returned entry is empty or whitespace-only.  The concrete example of the claim
also holds. -/
theorem C1_segmenter :
    (∀ text sep : List Char, sep ≠ [] →
      (∃ pieces : List (List Char),
        joinWith sep pieces = text ∧
        (∀ p ∈ pieces, pyIn sep p = false) ∧
        parse_snippets text sep = (pieces.map pyStrip).filter (fun s => !s.isEmpty)) ∧
      (∀ e ∈ parse_snippets text sep, e ≠ [] ∧ e.any (fun c => !isPySpace c) = true)) ∧
    parse_snippets (chars ("a<SPLIT>b<SPLIT>  <SPLIT>c")) (chars ("<SPLIT>")) =
      [chars ("a"), chars ("b"), chars ("c")] := by
  constructor
  · intro text sep hsep
    constructor
    · exact ⟨pySplit sep text, joinWith_pySplit hsep text, pySplit_clean hsep text, rfl⟩
    · intro e he
      exact parse_snippets_entry_has_ink he
  · decide

theorem C1_segmenter_witness :
    chars ("x") ≠ [] ∧ (chars ("x")).any (fun c => !isPySpace c) = true :=
  (C1_segmenter.1 (chars (" x , y ")) (chars (",")) (by decide)).2 (chars ("x")) (by decide)

/-- Claim C2: the stream loop skips lines without the event marker, ends
successfully at the first terminal-sentinel line returning the stripped
accumulator, appends the first choice's delta content of each recognized chunk
in arrival order, returns the stripped accumulator at end of stream, and the
three-chunk example stream returns "Hello". -/
theorem C2_completion_client :
    (∀ (acc line : List Char) (rest : List (List Char)),
      dataMark.isPrefixOf line = false →
      streamLoop acc (line :: rest) = streamLoop acc rest) ∧
    (∀ (acc line : List Char) (rest : List (List Char)),
      dataMark.isPrefixOf line = true →
      pyStrip (line.drop 6) = doneToken →
      streamLoop acc (line :: rest) = .ok (pyStrip acc)) ∧
    (∀ (acc line : List Char) (rest : List (List Char)) (d : Json) (s : List Char),
      dataMark.isPrefixOf line = true →
      pyStrip (line.drop 6) ≠ doneToken →
      json_loads (pyStrip (line.drop 6)) = some d →
      deltaField d = .ok (.str s) →
      streamLoop acc (line :: rest) = streamLoop (acc ++ s) rest) ∧
    (∀ acc : List Char, streamLoop acc [] = .ok (pyStrip acc)) ∧
    stream_llm_response (.resp 200 [helLine, loLine, doneLine]) = .ok (chars ("Hello")) := by
  refine ⟨?_, ?_, ?_, streamLoop_nil, rfl⟩
  · intro acc line rest h
    exact streamLoop_skip_non_data acc rest h
  · intro acc line rest h1 h2
    exact streamLoop_done acc rest h1 h2
  · intro acc line rest d s h1 h2 h3 h4
    exact streamLoop_content acc rest h1 h2 h3 h4

theorem C2_completion_client_witness :
    streamLoop (chars ("Hi")) [chars ("data: [DONE]")] = .ok (pyStrip (chars ("Hi"))) :=
  C2_completion_client.2.1 (chars ("Hi")) (chars ("data: [DONE]")) [] (by decide) (by decide)

/-- Claim C3 as stated is false: Python str.format does not leave the rest of
the template unchanged.  The template below contains the placeholder, yet the
builder collapses the brace escapes, yielding a result different from the
template with only the placeholder replaced. -/
theorem C3_prompt_builder_counterexample :
    pyIn placeholder tmplCE = true ∧
    build_instruction_prompt (chars ("X")) tmplCE = .ok (chars ("\x7b\x7d X")) ∧
    replaceAll placeholder (chars ("X")) tmplCE = chars ("\x7b\x7b\x7d\x7d X") ∧
    build_instruction_prompt (chars ("X")) tmplCE ≠
      .ok (replaceAll placeholder (chars ("X")) tmplCE) := by
  refine ⟨by decide, rfl, rfl, fun h => ?_⟩
  rw [show build_instruction_prompt (chars ("X")) tmplCE = .ok (chars ("\x7b\x7d X")) from rfl,
    show replaceAll placeholder (chars ("X")) tmplCE = chars ("\x7b\x7b\x7d\x7d X") from rfl] at h
  injection h with h2
  exact absurd h2 (by decide)

/-- Claim C3 amended: restricted to templates whose only brace characters form
literal \x7bsnippet\x7d occurrences, the builders perform exactly one substitution
pass replacing every occurrence of the placeholder with the literal snippet
text, leaving the rest unchanged; the snippet is inserted verbatim with no
recursive substitution, as the second concrete conjunct shows for a snippet
that itself contains the placeholder syntax.  Templates with any other brace
use fall under Python format's escape and field rules instead. -/
theorem C3_prompt_builder_amended :
    (∀ template s : List Char, goodTemplate template = true →
      build_instruction_prompt s template = .ok (replaceAll placeholder s template) ∧
      build_input_prompt s template = .ok (replaceAll placeholder s template)) ∧
    build_instruction_prompt (chars ("X")) (chars ("pre \x7bsnippet\x7d post")) =
      .ok (chars ("pre X post")) ∧
    build_instruction_prompt (chars ("a \x7bsnippet\x7d b")) (chars ("pre \x7bsnippet\x7d post")) =
      .ok (chars ("pre a \x7bsnippet\x7d b post")) := by
  refine ⟨?_, rfl, rfl⟩
  intro template s hg
  exact ⟨pyFormat_goodTemplate s template hg, pyFormat_goodTemplate s template hg⟩

theorem C3_prompt_builder_witness :
    build_instruction_prompt (chars ("Y")) (chars ("ab \x7bsnippet\x7d cd")) =
      .ok (replaceAll placeholder (chars ("Y")) (chars ("ab \x7bsnippet\x7d cd"))) :=
  (C3_prompt_builder_amended.1 (chars ("ab \x7bsnippet\x7d cd")) (chars ("Y")) (by decide)).1

/-- Claim C4 as stated is false in its index part: the error raised by
process_snippet carries no snippet index — two different snippets failing the
same way at two different batch positions raise the identical error value, so
no reading of the error can recover the position. -/
theorem C4_record_processor_counterexample :
    process_snippet (chars ("a")) tmplW tmplW failWorld =
      .error (chars ("Failed to process snippet: API request failed: refused")) ∧
    process_snippet (chars ("b")) tmplW tmplW failWorld =
      .error (chars ("Failed to process snippet: API request failed: refused")) ∧
    ¬ ∃ recoverIndex : List Char → Nat,
        recoverIndex (chars ("Failed to process snippet: API request failed: refused")) = 0 ∧
        recoverIndex (chars ("Failed to process snippet: API request failed: refused")) = 1 := by
  refine ⟨rfl, rfl, ?_⟩
  rintro ⟨f, h0, h1⟩
  rw [h0] at h1
  exact absurd h1 (by decide)

/-- Claim C4 amended: process_snippet either returns a record whose output
field is the verbatim snippet, or fails as a whole with an error that wraps the
underlying cause under the fixed prefix "Failed to process snippet: ", with no
partial record; the snippet index is attached only by the caller that reports
the failure.  The second conjunct states the wrapping for a failing first
completion call. -/
theorem C4_record_processor_amended :
    (∀ (snippet tI tP : List Char) (world : List Char → HttpResult),
      (∃ instr inp, process_snippet snippet tI tP world = .ok ⟨instr, inp, snippet⟩) ∨
      (∃ m, process_snippet snippet tI tP world = .error (procErrMark ++ m))) ∧
    (∀ (snippet tI tP p1 : List Char) (world : List Char → HttpResult) (e : ApiError),
      build_instruction_prompt snippet tI = .ok p1 →
      stream_llm_response (world p1) = .error e →
      process_snippet snippet tI tP world = .error (procErrMark ++ apiErrMsg e)) := by
  constructor
  · intro snippet tI tP world
    exact process_snippet_cases snippet tI tP world
  · intro snippet tI tP p1 world e h1 h2
    exact process_snippet_fail_first snippet tI tP world h1 h2

theorem C4_record_processor_witness :
    process_snippet (chars ("s")) tmplW tmplW failWorld =
      .error (procErrMark ++
        apiErrMsg (.apiRequestFailed (.connectionFailure (chars ("refused"))))) :=
  C4_record_processor_amended.2 (chars ("s")) tmplW tmplW (chars ("T: s")) failWorld
    (.apiRequestFailed (.connectionFailure (chars ("refused")))) rfl rfl

/-- Claim C5: with completion order modelled as an arbitrary permutation of the
snippet indices, the pool produces exactly one outcome per snippet, each tagged
with its original index (the tags are a permutation of 0..N-1), successes plus
failures equal N, and one snippet whose completion calls always fail leaves
every other snippet succeeding with its record (output = its snippet)
retrievable; the sequential app loop likewise produces one outcome per
snippet. -/
theorem C5_pipeline_runner :
    ∀ (snippets : List (List Char)) (tI tP : List Char)
      (world : Nat → List Char → HttpResult) (order : List Nat) (k : Nat) (m : List Char),
      order.Perm (List.range snippets.length) →
      goodTemplate tI = true → goodTemplate tP = true →
      (∀ p, world k p = .connectionFailure m) →
      (∀ i, i ≠ k → ∀ p, world i p = .resp 200 [okLine, doneLine]) →
      ((pool_outcomes snippets tI tP world order).map Prod.fst).Perm
          (List.range snippets.length) ∧
      (pool_outcomes snippets tI tP world order).length = snippets.length ∧
      ((pool_outcomes snippets tI tP world order).countP (fun o => isOkE o.2) +
        (pool_outcomes snippets tI tP world order).countP (fun o => !(isOkE o.2)) =
        snippets.length) ∧
      (∀ oc ∈ pool_outcomes snippets tI tP world order,
        oc.1 ≠ k → oc.2 = .ok ⟨chars ("ok"), chars ("ok"), snippets.getD oc.1 []⟩) ∧
      (∀ oc ∈ pool_outcomes snippets tI tP world order,
        oc.1 = k → ∃ em, oc.2 = .error em) ∧
      (app_results snippets tI tP world).1.length +
        (app_results snippets tI tP world).2.length = snippets.length := by
  intro snippets tI tP world order k m hperm hgi hgp hfail hgood
  refine ⟨?_, ?_, ?_, ?_, ?_, ?_⟩
  · rw [pool_outcomes_map_fst]
    exact hperm
  · rw [pool_outcomes_length, hperm.length_eq, List.length_range]
  · rw [countP_isOk_add, pool_outcomes_length, hperm.length_eq, List.length_range]
  · intro oc hoc hne
    rw [(mem_pool_outcomes hoc).2]
    exact process_snippet_good (snippets.getD oc.1 []) tI tP (world oc.1) hgi hgp
      (hgood oc.1 hne)
  · intro oc hoc hk
    rw [(mem_pool_outcomes hoc).2, hk]
    exact ⟨_, process_snippet_all_fail (snippets.getD k []) tI tP (world k) hgi hfail⟩
  · rw [app_results_eq]
    have := filterMap_length_partition (appOk tI tP world snippets)
      (appErr tI tP world snippets) (List.range snippets.length)
      (fun i _ => appOk_appErr_exclusive tI tP world snippets i)
    rw [List.length_range] at this
    exact this

theorem C5_pipeline_runner_witness :
    (pool_outcomes snipsW tmplW tmplW worldW [1, 0]).countP (fun o => isOkE o.2) +
      (pool_outcomes snipsW tmplW tmplW worldW [1, 0]).countP (fun o => !(isOkE o.2)) = 2 :=
  (C5_pipeline_runner snipsW tmplW tmplW worldW [1, 0] 0 (chars ("refused"))
    (by decide) (by decide) (by decide)
    (fun p => rfl)
    (fun i hi p => by simp [worldW, hi])).2.2.1

/-- Claim C6: a data line whose payload fails to decode as JSON is skipped and
the loop continues; a stream with one malformed line between two valid content
chunks still returns the concatenation of the valid chunks, and the malformed
line is never surfaced. -/
theorem C6_malformed_chunks_skipped :
    (∀ (acc line : List Char) (rest : List (List Char)),
      dataMark.isPrefixOf line = true →
      pyStrip (line.drop 6) ≠ doneToken →
      json_loads (pyStrip (line.drop 6)) = none →
      streamLoop acc (line :: rest) = streamLoop acc rest) ∧
    stream_llm_response (.resp 200 [helLine, badJsonLine, loLine, doneLine]) =
      .ok (chars ("Hello")) := by
  refine ⟨?_, rfl⟩
  intro acc line rest h1 h2 h3
  exact streamLoop_skip_malformed acc rest h1 h2 h3

theorem C6_malformed_chunks_witness :
    streamLoop (chars ("A")) [badJsonLine] = streamLoop (chars ("A")) [] :=
  C6_malformed_chunks_skipped.1 (chars ("A")) badJsonLine [] (by decide) (by decide) rfl

/-- Claim C7 as stated is false at status 304: it is not a 2xx status, yet
raise_for_status does not raise there, so the call succeeds (with the empty
body it returns the empty string) instead of failing with an http error. -/
theorem C7_error_kinds_counterexample :
    ¬(200 ≤ 304 ∧ 304 < 300) ∧
    stream_llm_response (.resp 304 []) = .ok [] := ⟨by decide, rfl⟩

/-- Claim C7 amended: connection failures and timeouts fail with the wrapped
requests-exception error of network kind; a 4xx or 5xx status fails with the
wrapped error of http kind carrying the status code (other non-2xx statuses,
like 304, do not fail); the two kinds are distinct values; both are surfaced
to the Record Processor, which wraps them in its own snippet-failure message;
no retry exists — the result is a function of the single HTTP outcome. -/
theorem C7_error_kinds_amended :
    (∀ m : List Char, stream_llm_response (.connectionFailure m) =
      .error (.apiRequestFailed (.connectionFailure m))) ∧
    stream_llm_response .timedOut = .error (.apiRequestFailed .timedOut) ∧
    (∀ (status : Nat) (lines : List (List Char)), 400 ≤ status → status < 600 →
      stream_llm_response (.resp status lines) =
        .error (.apiRequestFailed (.httpError status))) ∧
    (∀ (status : Nat) (m : List Char),
      ReqFail.httpError status ≠ ReqFail.connectionFailure m ∧
      ReqFail.httpError status ≠ ReqFail.timedOut) ∧
    (∀ (snippet tI tP p1 : List Char) (world : List Char → HttpResult) (e : ApiError),
      build_instruction_prompt snippet tI = .ok p1 →
      stream_llm_response (world p1) = .error e →
      process_snippet snippet tI tP world = .error (procErrMark ++ apiErrMsg e)) := by
  refine ⟨fun m => rfl, rfl, ?_, ?_, ?_⟩
  · intro status lines h1 h2
    exact stream_llm_response_http ⟨h1, h2⟩
  · intro status m
    exact ⟨fun h => ReqFail.noConfusion h, fun h => ReqFail.noConfusion h⟩
  · intro snippet tI tP p1 world e h1 h2
    exact process_snippet_fail_first snippet tI tP world h1 h2

theorem C7_error_kinds_witness :
    stream_llm_response (.resp 404 []) = .error (.apiRequestFailed (.httpError 404)) :=
  C7_error_kinds_amended.2.2.1 404 [] (by decide) (by decide)

/-- Claim C8 as stated is false: on a template without the placeholder the
Prompt Builder does not fail — Python format returns the template unchanged. -/
theorem C8_invalid_template_counterexample :
    build_instruction_prompt (chars ("X")) (chars ("no placeholder")) =
      .ok (chars ("no placeholder")) := rfl

/-- Claim C8 amended: the missing-placeholder check lives in the separate
validator validate_prompts, which returns (false, message) naming the first
template lacking \x7bsnippet\x7d and (true, _) otherwise — one check per template
per call, not per snippet; the builder itself silently returns a
placeholder-free template unchanged (shown for brace-free templates). -/
theorem C8_validator_amended :
    (∀ tI tP : List Char, pyIn placeholder tI = false →
      validate_prompts tI tP =
        (false, chars ("Instruction template must contain \x7bsnippet\x7d placeholder"))) ∧
    (∀ tI tP : List Char, pyIn placeholder tI = true → pyIn placeholder tP = false →
      validate_prompts tI tP =
        (false, chars ("Input template must contain \x7bsnippet\x7d placeholder"))) ∧
    (∀ tI tP : List Char, pyIn placeholder tI = true → pyIn placeholder tP = true →
      validate_prompts tI tP = (true, chars ("Prompts are valid"))) ∧
    (∀ s t : List Char, goodTemplate t = true → pyIn placeholder t = false →
      build_instruction_prompt s t = .ok t) := by
  refine ⟨?_, ?_, ?_, ?_⟩
  · intro tI tP h
    simp [validate_prompts, h]
  · intro tI tP h1 h2
    simp [validate_prompts, h1, h2]
  · intro tI tP h1 h2
    simp [validate_prompts, h1, h2]
  · intro s t hg hin
    exact pyFormat_no_placeholder s t hg hin

theorem C8_validator_witness :
    validate_prompts (chars ("no placeholder")) (chars ("x")) =
      (false, chars ("Instruction template must contain \x7bsnippet\x7d placeholder")) :=
  C8_validator_amended.1 (chars ("no placeholder")) (chars ("x")) (by decide)

/-- Claim C9 as stated is false: when a piece is empty after trimming it is
discarded, so joining the returned entries with the delimiter loses that piece
and one delimiter occurrence, and no longer equals the original text with each
piece replaced by its trimmed form. -/
theorem C9_join_counterexample :
    joinWith (chars ("<SPLIT>"))
        (parse_snippets (chars ("a<SPLIT>  <SPLIT>c")) (chars ("<SPLIT>"))) =
      chars ("a<SPLIT>c") ∧
    joinWith (chars ("<SPLIT>"))
        ((pySplit (chars ("<SPLIT>")) (chars ("a<SPLIT>  <SPLIT>c"))).map pyStrip) =
      chars ("a<SPLIT><SPLIT>c") ∧
    ¬(joinWith (chars ("<SPLIT>"))
        (parse_snippets (chars ("a<SPLIT>  <SPLIT>c")) (chars ("<SPLIT>"))) =
      joinWith (chars ("<SPLIT>"))
        ((pySplit (chars ("<SPLIT>")) (chars ("a<SPLIT>  <SPLIT>c"))).map pyStrip)) := by
  refine ⟨by decide, by decide, by decide⟩

/-- Claim C9 amended: joining the raw pieces with the delimiter reconstructs
the original text exactly; and whenever no piece is empty after trimming (so
nothing is discarded), joining the Segmenter's entries with the delimiter
equals the original text with each delimiter-separated piece replaced by its
whitespace-trimmed form. -/
theorem C9_join_amended :
    ∀ text sep : List Char, sep ≠ [] →
      joinWith sep (pySplit sep text) = text ∧
      ((∀ p ∈ pySplit sep text, pyStrip p ≠ []) →
        joinWith sep (parse_snippets text sep) =
          joinWith sep ((pySplit sep text).map pyStrip)) := by
  intro text sep hsep
  refine ⟨joinWith_pySplit hsep text, ?_⟩
  intro hall
  rw [parse_snippets, List.filter_eq_self.mpr]
  intro a ha
  obtain ⟨p, hp, rfl⟩ := List.mem_map.mp ha
  simpa using hall p hp

theorem C9_join_witness :
    joinWith (chars (",")) (pySplit (chars (",")) (chars ("a,b"))) = chars ("a,b") :=
  (C9_join_amended (chars ("a,b")) (chars (",")) (by decide)).1

/-- Claim C10: a data line whose payload is valid JSON but lacks the expected
shape (choices absent, choices empty, delta absent — every case in which the
extraction chain raises) aborts the whole call with that error, whatever text
was accumulated and whatever lines remain; at the client level the error is
surfaced as the processing-error wrapper and the accumulated text is
discarded.  The concrete stream accumulates "Hel", then aborts on a chunk
without "choices", never reaching the remaining valid lines. -/
theorem C10_structural_mismatch_aborts :
    (∀ (acc line : List Char) (rest : List (List Char)) (d : Json) (e : PyExc),
      dataMark.isPrefixOf line = true →
      pyStrip (line.drop 6) ≠ doneToken →
      json_loads (pyStrip (line.drop 6)) = some d →
      deltaField d = .error e →
      streamLoop acc (line :: rest) = .error e) ∧
    (∀ (lines : List (List Char)) (e : PyExc),
      streamLoop [] lines = .error e →
      stream_llm_response (.resp 200 lines) = .error (.processingError e)) ∧
    stream_llm_response (.resp 200 [helLine, noChoicesLine, loLine, doneLine]) =
      .error (.processingError (.keyError (chars ("choices")))) := by
  refine ⟨?_, ?_, rfl⟩
  · intro acc line rest d e h1 h2 h3 h4
    exact streamLoop_abort acc rest h1 h2 h3 h4
  · intro lines e h
    exact stream_llm_response_err_of_loop (by omega) h

theorem C10_structural_mismatch_witness :
    stream_llm_response (.resp 200 [noChoicesLine]) =
      .error (.processingError (.keyError (chars ("choices")))) :=
  C10_structural_mismatch_aborts.2.1 [noChoicesLine] (.keyError (chars ("choices"))) rfl
